import Mathlib

/-!
# Verification of the csvstruct CSV-to-components reader

Shallow embedding of the reflection-based `Reader` of the csvstruct Go
package (file `part_000` of the sources): parsing qualified header names,
building result/column descriptors, decoding data rows with typed cell
coercion, and the stateful header/data protocol with its permanent-error
latch.

Modelling conventions:
* Go struct types are `CompType` values: a name plus an ordered field
  layout.  Go's `reflect.Type` identity is modelled by structural equality
  of `CompType` (two Go named types are equal iff they are the same type;
  name plus layout stands in for that identity).
* `reflect.Value` instances of a component are `SlotVal`: the component
  type paired with the ordered list of its field values.
* The underlying `csv.Reader` is modelled as the list of its remaining
  rows; the only condition it signals is end-of-stream (`io.EOF`), which
  is how the verified claims exercise it.  The number of `csv.Reader.Read`
  calls a single `Reader.Read` performs is mirrored by `Reader.pullCount`.
* Machine integers are `Int`/`Nat` with explicit bounds: `strconv.ParseInt`
  / `ParseUint` with base 0 and bit size 64 are `parseInt64` / `parseUint64`
  (underscore digit separators are not modelled), and `reflect`'s
  `OverflowInt` / `OverflowUint` are explicit range checks.
* Field kinds covered: signed and unsigned integers of widths 8/16/32/64
  (Go's `int`/`uint` being the 64-bit case), strings and booleans.  The
  reader's `float32`/`float64` branches are orthogonal to the claims
  checked here and are not part of the embedding.
* Go run-time panics (out-of-range slice indexing, invalid `reflect`
  operations) are the `crash` outcome, distinct from returned errors.
-/

namespace Csvstruct

/-- Semantic type of a component field (the `reflect.Kind` of the Go field).
Widths are in bits; Go's `int`/`uint` are the 64-bit widths. -/
inductive FieldKind where
  | int (width : Nat)
  | uint (width : Nat)
  | str
  | boolean
deriving DecidableEq

/-- A decoded field value. -/
inductive Value where
  | vint (v : Int)
  | vuint (v : Nat)
  | vstr (s : String)
  | vbool (b : Bool)
deriving DecidableEq

/-- The zero/default value of a field kind (Go's zero value). -/
def FieldKind.zero : FieldKind → Value
  | .int _ => .vint 0
  | .uint _ => .vuint 0
  | .str => .vstr ""
  | .boolean => .vbool false

/-- `strconv` failure: `ErrSyntax` or `ErrRange`. -/
inductive NumError where
  | synErr
  | range
deriving DecidableEq

/-- Value of a digit character, or `99` (always out of base range) for a
non-digit, matching `strconv`'s per-character digit decoding. -/
def digitVal (c : Char) : Nat :=
  if '0' ≤ c ∧ c ≤ '9' then c.toNat - '0'.toNat
  else if 'a' ≤ c ∧ c ≤ 'z' then c.toNat - 'a'.toNat + 10
  else if 'A' ≤ c ∧ c ≤ 'Z' then c.toNat - 'A'.toNat + 10
  else 99

/-- The digit-accumulation loop of `strconv.ParseUint`: left to right, a
character that is not a digit of the base fails with `ErrSyntax`, and a
value exceeding `maxVal` fails with `ErrRange`. -/
def scanDigits (base maxVal : Nat) (n : Nat) : List Char → Except NumError Nat
  | [] => .ok n
  | c :: cs =>
    let d := digitVal c
    if d ≥ base then .error .synErr
    else if base * n + d > maxVal then .error .range
    else scanDigits base maxVal (base * n + d) cs

/-- Base detection of `strconv.ParseUint` with base argument 0: `0b`/`0o`/`0x`
prefixes (requiring at least one further character), a bare leading `0`
meaning octal, decimal otherwise. -/
def baseAndDigits (cs : List Char) : Nat × List Char :=
  match cs with
  | '0' :: rest =>
    match rest with
    | c :: d :: ds =>
      if c = 'b' ∨ c = 'B' then (2, d :: ds)
      else if c = 'o' ∨ c = 'O' then (8, d :: ds)
      else if c = 'x' ∨ c = 'X' then (16, d :: ds)
      else (8, rest)
    | _ => (8, rest)
  | _ => (10, cs)

/-- `strconv.ParseUint(s, 0, 64)`.  No sign is permitted; the value must fit
in 64 bits. -/
def parseUint64 (s : String) : Except NumError Nat :=
  match s.toList with
  | [] => .error .synErr
  | cs =>
    let bd := baseAndDigits cs
    scanDigits bd.1 (2 ^ 64 - 1) 0 bd.2

/-- `strconv.ParseInt(s, 0, 64)`: optional sign, then the `ParseUint` digit
scan, then the signed 64-bit range check. -/
def parseInt64 (s : String) : Except NumError Int :=
  match s.toList with
  | [] => .error .synErr
  | c :: rest =>
    let (neg, cs) :=
      if c = '+' then (false, rest)
      else if c = '-' then (true, rest)
      else (false, c :: rest)
    match cs with
    | [] => .error .synErr
    | _ =>
      let bd := baseAndDigits cs
      match scanDigits bd.1 (2 ^ 64 - 1) 0 bd.2 with
      | .error e => .error e
      | .ok un =>
        if ¬neg ∧ un ≥ 2 ^ 63 then .error .range
        else if neg ∧ un > 2 ^ 63 then .error .range
        else .ok (if neg then -(un : Int) else (un : Int))

/-- `strconv.ParseBool`: the canonical boolean literals. -/
def parseBool (s : String) : Except NumError Bool :=
  if s = "1" ∨ s = "t" ∨ s = "T" ∨ s = "TRUE" ∨ s = "true" ∨ s = "True" then .ok true
  else if s = "0" ∨ s = "f" ∨ s = "F" ∨ s = "FALSE" ∨ s = "false" ∨ s = "False" then .ok false
  else .error .synErr

/-- `reflect.Value.OverflowInt` for a signed field of `w` bits. -/
def overflowInt (w : Nat) (v : Int) : Bool :=
  v < -(2 ^ (w - 1) : Int) ∨ v > 2 ^ (w - 1) - 1

/-- `reflect.Value.OverflowUint` for an unsigned field of `w` bits. -/
def overflowUint (w : Nat) (v : Nat) : Bool :=
  v > 2 ^ w - 1

/-- An error returned by `setFieldFromCell`: a `strconv` error returned
verbatim, the reader's own too-large-for-the-field error, or the default
branch of the kind switch (which also fires for the invalid kind of a
zero `reflect.Value`). -/
inductive CellError where
  | numError (e : NumError)
  | overflow (cell : String) (kind : FieldKind)
  | unhandledKind
deriving DecidableEq

/-- `setFieldFromCell`: coerce cell text into a field of the given kind. -/
def setFieldFromCell (kind : FieldKind) (cell : String) : Except CellError Value :=
  match kind with
  | .int w =>
    match parseInt64 cell with
    | .error e => .error (.numError e)
    | .ok v =>
      if overflowInt w v then .error (.overflow cell kind) else .ok (.vint v)
  | .uint w =>
    match parseUint64 cell with
    | .error e => .error (.numError e)
    | .ok v =>
      if overflowUint w v then .error (.overflow cell kind) else .ok (.vuint v)
  | .str => .ok (.vstr cell)
  | .boolean =>
    match parseBool cell with
    | .error e => .error (.numError e)
    | .ok b => .ok (.vbool b)

/-- A component type: its (Go type) name and ordered field layout. -/
structure CompType where
  name : String
  fields : List (String × FieldKind)
deriving DecidableEq

/-- An instance of a component: its field values, in field order. -/
abbrev Inst := List Value

/-- A typed mutable component instance (a dereferenced `reflect.New`). -/
abbrev SlotVal := CompType × Inst

/-- The zero instance of a component type (`reflect.New`'s pointee). -/
def zeroInst (t : CompType) : Inst :=
  t.fields.map (fun f => f.2.zero)

/-- `reflect`'s `FieldByName` on a flat struct: index and kind of the first
field with the given name, if any. -/
def fieldByName (fields : List (String × FieldKind)) (name : String) :
    Option (Nat × FieldKind) :=
  match fields with
  | [] => none
  | f :: fs =>
    if f.1 = name then some (0, f.2)
    else (fieldByName fs name).map (fun p => (p.1 + 1, p.2))

/-- The schema map from component name to component type (`map[string]reflect.Type`). -/
abbrev Schema := List (String × CompType)

/-- Go map assignment `m[k] = v`: replace the binding if present, add it otherwise. -/
def schemaInsert (σ : Schema) (k : String) (v : CompType) : Schema :=
  match σ with
  | [] => [(k, v)]
  | (k', v') :: rest =>
    if k' = k then (k, v) :: rest else (k', v') :: schemaInsert rest k v

/-- Go map lookup `m[k]`. -/
def schemaLookup (σ : Schema) (k : String) : Option CompType :=
  match σ with
  | [] => none
  | (k', v') :: rest => if k' = k then some v' else schemaLookup rest k

/-- `SetSchema`'s loop body: derive each component's name and index by it
(later duplicates silently overwrite earlier ones, as in a Go map). -/
def buildSchema (components : List CompType) : Schema :=
  components.foldl (fun σ c => schemaInsert σ c.name c) []

/-- Errors surfaced by `Reader.Read`. -/
inductive ReadError where
  | missingHeader
  | eof
  | unknownComponent (name : String)
  | unknownField (comp field : String)
  | cellError (e : CellError)
deriving DecidableEq

/-- `parseHeaderColumnName`: split on the first `.`; with no `.` the whole
cell is the component name and the field name is empty.  (`SplitN` with
limit 2 never yields another shape, so the error path of the Go function
is unreachable.) -/
def splitFirstDot (acc : List Char) : List Char → String × String
  | [] => (String.mk acc.reverse, "")
  | '.' :: rest => (String.mk acc.reverse, String.mk rest)
  | c :: rest => splitFirstDot (c :: acc) rest

/-- Parse a qualified header cell into (component name, field name). -/
def parseHeaderColumnName (qualName : String) : String × String :=
  splitFirstDot [] qualName.toList

/-- `Reader.validateHeaderColumnName`: the component must be registered, and
a non-empty field name must exist in its layout. -/
def validateHeaderColumnName (σ : Schema) (componentName fieldName : String) :
    Except ReadError CompType :=
  match schemaLookup σ componentName with
  | none => .error (.unknownComponent componentName)
  | some t =>
    if fieldName.length > 0 then
      if (fieldByName t.fields fieldName).isSome then .ok t
      else .error (.unknownField componentName fieldName)
    else .ok t

/-- Parse and validate one header cell (the composition used on each column). -/
def resolveCol (σ : Schema) (qualName : String) : Except ReadError CompType :=
  validateHeaderColumnName σ (parseHeaderColumnName qualName).1
    (parseHeaderColumnName qualName).2

/-- The component types referenced by a header row, one entry per column, in
column order (failure of any column is the header build's failure). -/
def resolveHeader (σ : Schema) : List String → Except ReadError (List CompType)
  | [] => .ok []
  | q :: qs =>
    match resolveCol σ q with
    | .error e => .error e
    | .ok t =>
      match resolveHeader σ qs with
      | .error e => .error e
      | .ok ts => .ok (t :: ts)

/-- `slices.Index`: first index of `t`, `none` standing for Go's `-1`. -/
def indexOfAux (t : CompType) : List CompType → Option Nat
  | [] => none
  | x :: xs => if x = t then some 0 else (indexOfAux t xs).map (· + 1)

/-- `resultDescriptor`: the per-session result slots.  `componentTypes` and
`componentValues` are parallel; `results` is the output container handed to
the caller, reused across reads. -/
structure ResultDescriptor where
  componentTypes : List CompType
  componentValues : List SlotVal
  results : List (Option SlotVal)
deriving DecidableEq

/-- The zero `resultDescriptor{}`. -/
def ResultDescriptor.empty : ResultDescriptor := ⟨[], [], []⟩

/-- `columnDescriptor`: a column's slot index and field name. -/
structure ColumnDescriptor where
  resultIndex : Nat
  fieldName : String
deriving DecidableEq

/-- `Reader.extendResultDescriptor`: reuse the slot of an already-seen
component type, or append a new slot (fixing its output position). -/
def extendResultDescriptor (rd : ResultDescriptor) (t : CompType) :
    Nat × ResultDescriptor :=
  match indexOfAux t rd.componentTypes with
  | some i => (i, rd)
  | none =>
    (rd.componentTypes.length,
     { rd with
        componentTypes := rd.componentTypes ++ [t],
        componentValues := rd.componentValues ++ [(t, zeroInst t)] })

/-- One iteration of `Reader.createDescriptors`'s loop: parse the qualified
name, validate it, extend the result descriptor, and record a column
descriptor when a field name is present. -/
def processHeaderCell (σ : Schema) (st : ResultDescriptor × List ColumnDescriptor)
    (qualName : String) : Except ReadError (ResultDescriptor × List ColumnDescriptor) :=
  match resolveCol σ qualName with
  | .error e => .error e
  | .ok t =>
    let er := extendResultDescriptor st.1 t
    if (parseHeaderColumnName qualName).2.length > 0 then
      .ok (er.2, st.2 ++ [⟨er.1, (parseHeaderColumnName qualName).2⟩])
    else
      .ok (er.2, st.2)

/-- The loop of `Reader.createDescriptors` over the header cells. -/
def createDescriptorsLoop (σ : Schema) (st : ResultDescriptor × List ColumnDescriptor) :
    List String → Except ReadError (ResultDescriptor × List ColumnDescriptor)
  | [] => .ok st
  | q :: qs =>
    match processHeaderCell σ st q with
    | .error e => .error e
    | .ok st' => createDescriptorsLoop σ st' qs

/-- `Reader.createDescriptors`: start from a fresh column-descriptor list
(the result descriptor is extended from its current state, empty at every
call site), then allocate the output container, one entry per slot. -/
def createDescriptors (σ : Schema) (rd₀ : ResultDescriptor) (row : List String) :
    Except ReadError (ResultDescriptor × List ColumnDescriptor) :=
  match createDescriptorsLoop σ (rd₀, []) row with
  | .error e => .error e
  | .ok (rd, cols) =>
    .ok ({ rd with results := List.replicate rd.componentTypes.length none }, cols)

/-- The `Reader`: remaining rows of the underlying CSV source, schema,
permanent-error latch, descriptor flag, result descriptor and column
descriptors. -/
structure Reader where
  source : List (List String)
  schema : Schema
  permanentErr : Option ReadError
  hasDescriptors : Bool
  rd : ResultDescriptor
  columnDescriptors : List ColumnDescriptor
deriving DecidableEq

/-- Outcome of `parseRow`'s body. -/
inductive RowOutcome where
  | ok
  | rerr (e : ReadError)
  | crash
deriving DecidableEq

/-- The zeroing loop at the top of `parseRow`: every slot instance is reset
to its type's zero value because instances are reused across reads. -/
def zeroValues (rd : ResultDescriptor) : ResultDescriptor :=
  { rd with componentValues := rd.componentValues.map (fun sv => (sv.1, zeroInst sv.1)) }

/-- The cell loop of `parseRow`: empty cells are skipped; a non-empty cell's
column descriptor is fetched by raw column number (out of range is a Go
panic), the target slot instance is fetched by its slot index, the field is
looked up by name (a missing field yields the invalid `reflect.Value`, whose
kind falls into `setFieldFromCell`'s default branch), and the coerced value
is written in place. -/
def fillLoop (cols : List ColumnDescriptor) (rd : ResultDescriptor) (columnNum : Nat) :
    List String → RowOutcome × ResultDescriptor
  | [] => (.ok, rd)
  | cell :: cells =>
    if cell = "" then fillLoop cols rd (columnNum + 1) cells
    else
      match cols[columnNum]? with
      | none => (.crash, rd)
      | some cd =>
        match rd.componentValues[cd.resultIndex]? with
        | none => (.crash, rd)
        | some sv =>
          match fieldByName sv.1.fields cd.fieldName with
          | none => (.rerr (.cellError .unhandledKind), rd)
          | some fk =>
            match setFieldFromCell fk.2 cell with
            | .error ce => (.rerr (.cellError ce), rd)
            | .ok v =>
              fillLoop cols
                { rd with componentValues :=
                    rd.componentValues.set cd.resultIndex (sv.1, sv.2.set fk.1 v) }
                (columnNum + 1) cells

/-- `Reader.parseRow`: pull the next row (end-of-stream is `io.EOF`), zero
all slot instances, then run the cell loop. -/
def Reader.parseRow (r : Reader) : RowOutcome × Reader :=
  match r.source with
  | [] => (.rerr .eof, r)
  | row :: rest =>
    let fl := fillLoop r.columnDescriptors (zeroValues r.rd) 0 row
    (fl.1, { r with source := rest, rd := fl.2 })

/-- The snapshot loop at the end of `Reader.Read`: `results[i]` receives a
copy of slot `i`'s current instance (an out-of-range write is a Go panic). -/
def snapshotLoop (values : List SlotVal) (i : Nat) (results : List (Option SlotVal)) :
    Option (List (Option SlotVal)) :=
  match values with
  | [] => some results
  | v :: vs =>
    if i < results.length then snapshotLoop vs (i + 1) (results.set i (some v))
    else none

/-- `Reader.Clear`: drop the permanent error, the descriptor flag and all
descriptors; the source position and the schema are untouched. -/
def Reader.clear (r : Reader) : Reader :=
  { r with
      permanentErr := none,
      hasDescriptors := false,
      rd := ResultDescriptor.empty,
      columnDescriptors := [] }

/-- What one `Reader.Read` call returns: decoded data, an error, or a Go
panic (never data and an error together). -/
inductive ReadResult where
  | ok (out : List (Option SlotVal))
  | fail (e : ReadError)
  | crash
deriving DecidableEq

/-- The tail of `Reader.Read` once descriptors exist: parse a row (end of
stream and row errors are latched after a `Clear`), then snapshot every slot
into the reused `results` container and return that container. -/
def Reader.readAfterDescriptors (r : Reader) : ReadResult × Reader :=
  match r.parseRow with
  | (.rerr e, r₁) => (.fail e, { r₁.clear with permanentErr := some e })
  | (.crash, r₁) => (.crash, r₁)
  | (.ok, r₁) =>
    match snapshotLoop r₁.rd.componentValues 0 r₁.rd.results with
    | none => (.crash, r₁)
    | some results =>
      (.ok results, { r₁ with rd := { r₁.rd with results := results } })

/-- `Reader.Read`: return the latched error if present; otherwise build the
descriptors from the next row if needed (end of stream before any header is
the missing-header error, returned without latching; a failed build is
latched after a `Clear`), then decode one data row. -/
def Reader.read (r : Reader) : ReadResult × Reader :=
  match r.permanentErr with
  | some e => (.fail e, r)
  | none =>
    if r.hasDescriptors then
      r.readAfterDescriptors
    else
      match r.source with
      | [] => (.fail .missingHeader, r)
      | row :: rest =>
        let r₁ : Reader := { r with source := rest }
        match createDescriptors r.schema r.rd row with
        | .error e => (.fail e, { r₁.clear with permanentErr := some e })
        | .ok dc =>
          Reader.readAfterDescriptors
            { r₁ with hasDescriptors := true, rd := dc.1, columnDescriptors := dc.2 }

/-- Number of `csv.Reader.Read` calls (pulls from the row source) that one
`Reader.Read` call performs, mirroring `Reader.read` branch by branch: none
when the latch short-circuits, one for the header pull (even when it reports
end of stream) plus one for `parseRow`'s row pull when the build succeeds. -/
def Reader.pullCount (r : Reader) : Nat :=
  match r.permanentErr with
  | some _ => 0
  | none =>
    if r.hasDescriptors then 1
    else
      match r.source with
      | [] => 1
      | row :: _ =>
        match createDescriptors r.schema r.rd row with
        | .error _ => 1
        | .ok _ => 2

/-- `Reader.SetSchema`: replace the schema registry, touching nothing else. -/
def Reader.setSchema (r : Reader) (components : List CompType) : Reader :=
  { r with schema := buildSchema components }

/-- The outputs of `n` successive `Read` calls. -/
def runOutputs (r : Reader) : Nat → List ReadResult
  | 0 => []
  | n + 1 => (r.read).1 :: runOutputs (r.read).2 n

/-- The session state after `n` successive `Read` calls. -/
def readN (r : Reader) : Nat → Reader
  | 0 => r
  | n + 1 => ((readN r n).read).2

/-- First-occurrence deduplication relative to an already-seen list: each
element is kept at its first appearance, in order (the spec's "first
occurrence wins and fixes that slot's position in the output ordering"). -/
def firstOccsAux (seen : List CompType) : List CompType → List CompType
  | [] => []
  | t :: ts =>
    if t ∈ seen then firstOccsAux seen ts
    else t :: firstOccsAux (seen ++ [t]) ts

/-- The distinct component types of a resolved header, in order of first
appearance. -/
def firstOccs (ts : List CompType) : List CompType :=
  firstOccsAux [] ts

instance instDecEqExcept {ε α : Type} [DecidableEq ε] [DecidableEq α] :
    DecidableEq (Except ε α) := fun a b =>
  match a, b with
  | .ok x, .ok y =>
    if h : x = y then .isTrue (by rw [h]) else .isFalse (fun hh => by cases hh; exact h rfl)
  | .error x, .error y =>
    if h : x = y then .isTrue (by rw [h]) else .isFalse (fun hh => by cases hh; exact h rfl)
  | .ok _, .error _ => .isFalse (fun hh => by cases hh)
  | .error _, .ok _ => .isFalse (fun hh => by cases hh)

/-- Whether a coercion error reports an out-of-range magnitude: either the
reader's own too-large-for-the-field error (widths below 64) or `strconv`'s
`ErrRange` (the parse itself saturates at 64 bits), both the `Overflow`
coercion error of the specification's taxonomy. -/
def CellError.isOverflow : CellError → Bool
  | .overflow _ _ => true
  | .numError .range => true
  | _ => false

/-- Whether a coercion attempt failed with an overflow-class error. -/
def coercionOverflows (res : Except CellError Value) : Bool :=
  match res with
  | .error e => e.isOverflow
  | .ok _ => false

/-- The kind of the field named `F` of slot `k`, read off the slot types. -/
def fieldSlotKind (values : List SlotVal) (k : Nat) (F : String) : Option FieldKind :=
  ((values.map Prod.fst)[k]?).bind fun t => (fieldByName t.fields F).map (·.2)

/-- The current value of the field named `F` of slot `k`. -/
def fieldSlotVal (values : List SlotVal) (k : Nat) (F : String) : Option Value :=
  values[k]?.bind fun sv => (fieldByName sv.1.fields F).bind fun fk => sv.2[fk.1]?

/-! Concrete component types, schemas and reader states used to instantiate
the verified properties (mirroring the package's tests and the spec's
scenarios). -/

/-- `type A struct { X string }`. -/
def typeA : CompType := ⟨"A", [("X", .str)]⟩

/-- `type B struct { Y string }`. -/
def typeB : CompType := ⟨"B", [("Y", .str)]⟩

/-- `type D struct { X, Y string }`. -/
def typeD : CompType := ⟨"D", [("X", .str), ("Y", .str)]⟩

/-- `type Player struct{}` — a marker component with no fields. -/
def typePlayer : CompType := ⟨"Player", []⟩

/-- `type Info struct { Name string }`. -/
def typeInfo : CompType := ⟨"Info", [("Name", .str)]⟩

/-- Schema registering `A`. -/
def schemaA : Schema := buildSchema [typeA]

/-- Schema registering `A` and `B`. -/
def schemaAB : Schema := buildSchema [typeA, typeB]

/-- Schema registering `D`. -/
def schemaD : Schema := buildSchema [typeD]

/-- Schema registering `Player` and `Info`. -/
def schemaPI : Schema := buildSchema [typePlayer, typeInfo]

/-- A fresh reader on the stream `A.X ⏎ 1 ⏎ 2`. -/
def readerTwoRows : Reader := ⟨[["A.X"], ["1"], ["2"]], schemaA, none, false, .empty, []⟩

/-- A fresh reader whose stream has a marker-only column (`Player`) before a
field column (`Info.Name`), and one data row with a value under the field
column. -/
def readerMarkerFirst : Reader :=
  ⟨[["Player", "Info.Name"], ["", "Alex"]], schemaPI, none, false, .empty, []⟩

/-- A fresh reader on an already-exhausted stream (no header at all). -/
def readerEmptyStream : Reader := ⟨[], schemaA, none, false, .empty, []⟩

/-- A fresh reader on a stream with a well-formed header and no data rows. -/
def readerHeaderOnly : Reader := ⟨[["A.X"]], schemaA, none, false, .empty, []⟩

/-- The result descriptor built from the header `A.X`. -/
def rdAX : ResultDescriptor := ⟨[typeA], [(typeA, [.vstr ""])], [none]⟩

/-- The column descriptors built from the header `A.X`. -/
def colsAX : List ColumnDescriptor := [⟨0, "X"⟩]

/-- A fresh reader whose header references the unregistered component
`Unknown` (the spec's scenario D). -/
def readerScenD : Reader := ⟨[["Unknown.Field"], ["x"]], schemaA, none, false, .empty, []⟩

/-- The session state latched by scenario D's failed header build. -/
def latchedD : Reader := (readerScenD.read).2

/-- A fresh reader on the two-table replay stream `A.X ⏎ 1`. -/
def readerOneRow : Reader := ⟨[["A.X"], ["1"]], schemaA, none, false, .empty, []⟩

/-- The session state after successfully decoding one row of `readerOneRow`
(descriptors built, one slot populated). -/
def readerAfterOne : Reader := (readerOneRow.read).2

/-- A ready session (descriptors built from the header `A.X ⏎ B.Y ⏎ A.X`)
on the stream still holding one data row. -/
def readerC5 : Reader :=
  ⟨[["A.X", "B.Y", "A.X"], ["1", "2", "3"]], schemaAB, none, false, .empty, []⟩

/-- The resolved component types of the header `A.X ⏎ B.Y ⏎ A.X`, one per
column. -/
def resolvedC5 : List CompType := [typeA, typeB, typeA]

/-- The output of decoding `1,2,3` under the header `A.X,B.Y,A.X`: slot `A`
(first seen at column 0, its cell overwritten by column 2) and slot `B`. -/
def outC5 : List (Option SlotVal) :=
  [some (typeA, [.vstr "3"]), some (typeB, [.vstr "2"])]

/-- The session state after that decode. -/
def readerC5After : Reader :=
  ⟨[], schemaAB, none, true,
   ⟨[typeA, typeB], [(typeA, [.vstr "3"]), (typeB, [.vstr "2"])], outC5⟩,
   [⟨0, "X"⟩, ⟨1, "Y"⟩, ⟨0, "X"⟩]⟩

/-- A ready session over component `D` whose slot instance still holds stale
values from a previous row, about to decode the row `,v` (empty cell for
field `X`). -/
def readerC6 : Reader :=
  ⟨[["", "v"]], schemaD, none, true,
   ⟨[typeD], [(typeD, [.vstr "stale", .vstr "old"])], [none]⟩,
   [⟨0, "X"⟩, ⟨0, "Y"⟩]⟩

/-- The output of decoding `,v` in `readerC6`: `X` back at its default, `Y`
freshly written. -/
def outC6 : List (Option SlotVal) := [some (typeD, [.vstr "", .vstr "v"])]

/-- The session state after that decode. -/
def readerC6After : Reader :=
  ⟨[], schemaD, none, true,
   ⟨[typeD], [(typeD, [.vstr "", .vstr "v"])], outC6⟩,
   [⟨0, "X"⟩, ⟨0, "Y"⟩]⟩

/-- A fresh reader on the header `A.X,B.Y,A.X` followed by two data rows,
to exercise a decode that is not the session's first. -/
def readerC5b : Reader :=
  ⟨[["A.X", "B.Y", "A.X"], ["1", "2", "3"], ["4", "5", "6"]], schemaAB, none, false,
   .empty, []⟩

/-- The output of the second data row `4,5,6` of `readerC5b`: slot `A`
(column 2 overwrites column 0) and slot `B`, still in first-seen order. -/
def outC5b : List (Option SlotVal) :=
  [some (typeA, [.vstr "6"]), some (typeB, [.vstr "5"])]

/-- The session state after the second decode of `readerC5b`. -/
def readerC5bAfter : Reader :=
  ⟨[], schemaAB, none, true,
   ⟨[typeA, typeB], [(typeA, [.vstr "6"]), (typeB, [.vstr "5"])], outC5b⟩,
   [⟨0, "X"⟩, ⟨1, "Y"⟩, ⟨0, "X"⟩]⟩

/-- The first output container of `readerTwoRows` (row `1`). -/
def outFirst : List (Option SlotVal) := [some (typeA, [.vstr "1"])]

/-- The second output container of `readerTwoRows` (row `2`). -/
def outSecond : List (Option SlotVal) := [some (typeA, [.vstr "2"])]

/-! ## General lemmas about the reader -/

/-- A successful `Read` hands the caller the reader's own `results`
container: the returned value and the internal reused buffer coincide. -/
theorem readAfterDescriptors_ok_results (r : Reader) (out : List (Option SlotVal))
    (r' : Reader) (h : r.readAfterDescriptors = (.ok out, r')) : r'.rd.results = out := by
  rcases hp : r.parseRow with ⟨o, r₁⟩
  unfold Reader.readAfterDescriptors at h
  rw [hp] at h
  cases o with
  | rerr e => simp at h
  | crash => simp at h
  | ok =>
    dsimp only at h
    rcases hs : snapshotLoop r₁.rd.componentValues 0 r₁.rd.results with _ | results
    · rw [hs] at h; simp at h
    · rw [hs] at h
      rw [Prod.mk.injEq] at h
      obtain ⟨h1, h2⟩ := h
      injection h1 with h1
      subst h1
      subst h2
      rfl

/-! ## The claims -/

/-- C8: once a build or decode failure has latched the session, every
subsequent `Read` returns the latched condition verbatim with the state
unchanged, performs no pull from the row source, and `Clear` removes the
latch. -/
theorem c8_latched_error_returned_verbatim (r : Reader) (e : ReadError)
    (h : r.permanentErr = some e) :
    r.read = (.fail e, r) ∧ r.pullCount = 0 ∧ (r.clear).permanentErr = none := by
  refine ⟨?_, ?_, rfl⟩ <;> simp [Reader.read, Reader.pullCount, h]

/-- C8 witness: the session latched by scenario D's unknown component. -/
theorem c8_latched_error_returned_verbatim_witness :
    latchedD.read = (.fail (.unknownComponent "Unknown"), latchedD) ∧
    latchedD.pullCount = 0 ∧ (latchedD.clear).permanentErr = none :=
  c8_latched_error_returned_verbatim latchedD (.unknownComponent "Unknown") (by decide)

/-- C3 counterexample: after end-of-stream before any header, the
missing-header error is NOT latched (`permanentErr` stays `none`), and the
next `Read` pulls from the row source again (one pull, not zero), contrary
to the claimed permanent latch. -/
theorem c3_missing_header_is_not_latched :
    (readerEmptyStream.read).1 = .fail .missingHeader ∧
    ((readerEmptyStream.read).2).permanentErr = none ∧
    ((readerEmptyStream.read).2.read).1 = .fail .missingHeader ∧
    Reader.pullCount (readerEmptyStream.read).2 = 1 := by decide

/-- C3 (amended): end-of-stream before any header returns the
missing-header error with the session state completely unchanged — the
error is not latched, and every subsequent `Read` performs a fresh pull
from the row source (returning the same error while the source remains
exhausted), until `Clear` or new data. -/
theorem c3_missing_header_returned_without_latching (r : Reader)
    (h1 : r.permanentErr = none) (h2 : r.hasDescriptors = false)
    (h3 : r.source = []) :
    r.read = (.fail .missingHeader, r) ∧ r.pullCount = 1 := by
  refine ⟨?_, ?_⟩ <;> simp [Reader.read, Reader.pullCount, h1, h2, h3]

/-- C3 witness: the amended behaviour on an exhausted fresh session. -/
theorem c3_missing_header_returned_without_latching_witness :
    readerEmptyStream.read = (.fail .missingHeader, readerEmptyStream) ∧
    readerEmptyStream.pullCount = 1 :=
  c3_missing_header_returned_without_latching readerEmptyStream rfl rfl rfl

/-- C4: a well-formed header followed by zero data rows: the first `Read`
returns the end-of-stream signal with no data and latches it; a second
`Read` without `Clear` returns the same signal with the state unchanged and
performs no pull from the row source. -/
theorem c4_eof_after_header_is_latched (σ : Schema) (header : List String)
    (rdx : ResultDescriptor) (colsx : List ColumnDescriptor)
    (h : createDescriptors σ .empty header = .ok (rdx, colsx)) :
    Reader.read ⟨[header], σ, none, false, .empty, []⟩ =
      (.fail .eof, ⟨[], σ, some .eof, false, .empty, []⟩) ∧
    Reader.read ⟨[], σ, some .eof, false, .empty, []⟩ =
      (.fail .eof, ⟨[], σ, some .eof, false, .empty, []⟩) ∧
    Reader.pullCount ⟨[], σ, some .eof, false, .empty, []⟩ = 0 := by
  refine ⟨?_, rfl, rfl⟩
  simp [Reader.read, h, Reader.readAfterDescriptors, Reader.parseRow, Reader.clear]

/-- C4 witness: the header `A.X` with no data rows. -/
theorem c4_eof_after_header_is_latched_witness :
    Reader.read ⟨[["A.X"]], schemaA, none, false, .empty, []⟩ =
      (.fail .eof, ⟨[], schemaA, some .eof, false, .empty, []⟩) ∧
    Reader.read ⟨[], schemaA, some .eof, false, .empty, []⟩ =
      (.fail .eof, ⟨[], schemaA, some .eof, false, .empty, []⟩) ∧
    Reader.pullCount ⟨[], schemaA, some .eof, false, .empty, []⟩ = 0 :=
  c4_eof_after_header_is_latched schemaA ["A.X"] rdAX colsAX (by decide)

/-- C9: `Clear` is idempotent, and after `Clear` a session with the same
schema behaves exactly like a fresh session on the replayed rows: rebuilding
from an identical header and replaying identical data rows reproduces the
first pass's decoded outputs. -/
theorem c9_clear_idempotent_and_replay (r : Reader) (σ : Schema)
    (l : List (List String)) (n : Nat) (h : r.schema = σ) :
    r.clear.clear = r.clear ∧
    runOutputs { r.clear with source := l } n =
      runOutputs (⟨l, σ, none, false, .empty, []⟩ : Reader) n := by
  refine ⟨rfl, ?_⟩
  rw [← h]
  rfl

/-- C9 witness: a used session, cleared and replayed on its original
two-row table. -/
theorem c9_clear_idempotent_and_replay_witness :
    readerAfterOne.clear.clear = readerAfterOne.clear ∧
    runOutputs { readerAfterOne.clear with source := [["A.X"], ["1"]] } 3 =
      runOutputs (⟨[["A.X"], ["1"]], schemaA, none, false, .empty, []⟩ : Reader) 3 :=
  c9_clear_idempotent_and_replay readerAfterOne schemaA [["A.X"], ["1"]] 3 (by decide)

/-- C2: evaluation of the code at the failing input.  With the marker-only
column `Player` before the field column `Info.Name`, the header build
records no column descriptor for column 0, so decoding the row `,Alex`
fetches `columnDescriptors[1]` out of bounds and the program crashes with a
run-time panic — it neither stays in bounds nor routes `Alex` into
`Info.Name`. -/
theorem c2_marker_column_shifts_descriptors_out_of_bounds :
    (readerMarkerFirst.read).1 = .crash := by decide

/-- C1 counterexample: the container returned by the first `Read` is the
reader's internal `results` buffer (see
`c1_read_returns_internal_buffer`), and the second `Read` overwrites that
same buffer with different values, so the first returned container is not
an independent snapshot that later reads leave intact. -/
theorem c1_returned_container_is_overwritten :
    (readerTwoRows.read).1 = .ok outFirst ∧
    ((readerTwoRows.read).2).rd.results = outFirst ∧
    (((readerTwoRows.read).2).read).1 = .ok outSecond ∧
    ((((readerTwoRows.read).2).read).2).rd.results = outSecond ∧
    outFirst ≠ outSecond := by decide

/-- C1 (amended): a successful `Read` returns the reader's own reused
`results` buffer, not an independent copy: the returned container and the
post-state's internal buffer coincide, so each later successful `Read` of
the same table overwrites the container handed out earlier, and callers
must copy it to retain outputs across reads (exactly as the code's own doc
comment warns).  The individual component values stored into the buffer are
snapshots of the slot instances. -/
theorem c1_read_returns_internal_buffer (r : Reader) (out : List (Option SlotVal))
    (r' : Reader) (h : r.read = (.ok out, r')) : r'.rd.results = out := by
  unfold Reader.read at h
  split at h
  · simp at h
  · split at h
    · exact readAfterDescriptors_ok_results _ _ _ h
    · split at h
      · simp at h
      · split at h
        · simp at h
        · exact readAfterDescriptors_ok_results _ _ _ h

/-- C1 witness: the aliasing fact at the first read of the two-row table. -/
theorem c1_read_returns_internal_buffer_witness :
    ((readerTwoRows.read).2).rd.results = outFirst :=
  c1_read_returns_internal_buffer readerTwoRows outFirst ((readerTwoRows.read).2) (by decide)

/-- C7: for each supported integer bit width, coercing the decimal string of
the maximum representable value succeeds and stores it, and coercing the
decimal string one unit beyond fails with an overflow-class coercion error
(the reader's too-large-for-the-field error below width 64, `strconv`'s
out-of-range error at width 64). -/
theorem c7_integer_boundary (w : Nat) (h : w = 8 ∨ w = 16 ∨ w = 32 ∨ w = 64) :
    setFieldFromCell (.int w) (Nat.repr (2 ^ (w - 1) - 1)) =
      .ok (.vint ((2 ^ (w - 1) - 1 : Nat) : Int)) ∧
    coercionOverflows (setFieldFromCell (.int w) (Nat.repr (2 ^ (w - 1)))) = true ∧
    setFieldFromCell (.uint w) (Nat.repr (2 ^ w - 1)) = .ok (.vuint (2 ^ w - 1)) ∧
    coercionOverflows (setFieldFromCell (.uint w) (Nat.repr (2 ^ w))) = true := by
  rcases h with h | h | h | h <;> subst h <;>
    exact ⟨by decide, by decide, by decide, by decide⟩

/-- `parseRow` pulls a row and updates the slots, touching no other state. -/
theorem parseRow_state (r : Reader) :
    ((r.parseRow).2).hasDescriptors = r.hasDescriptors ∧
    ((r.parseRow).2).schema = r.schema ∧
    ((r.parseRow).2).permanentErr = r.permanentErr ∧
    ((r.parseRow).2).columnDescriptors = r.columnDescriptors := by
  unfold Reader.parseRow
  rcases hs : r.source with _ | ⟨row, rest⟩ <;> simp [hs]

/-- `parseRow` never consults the schema registry. -/
theorem parseRow_schema_independent (r : Reader) (σ' : Schema) :
    Reader.parseRow { r with schema := σ' } =
      ((r.parseRow).1, { (r.parseRow).2 with schema := σ' }) := by
  unfold Reader.parseRow
  rcases hs : r.source with _ | ⟨row, rest⟩ <;> simp [hs]

/-- The post-header decode path never consults the schema registry. -/
theorem readAfterDescriptors_schema_independent (r : Reader) (σ' : Schema) :
    Reader.readAfterDescriptors { r with schema := σ' } =
      ((r.readAfterDescriptors).1, { (r.readAfterDescriptors).2 with schema := σ' }) := by
  unfold Reader.readAfterDescriptors
  rw [parseRow_schema_independent]
  rcases hp : r.parseRow with ⟨o, r₁⟩
  cases o with
  | rerr e => rfl
  | crash => rfl
  | ok =>
    dsimp only
    rcases hsnap : snapshotLoop r₁.rd.componentValues 0 r₁.rd.results with _ | results <;> rfl

/-- Once descriptors exist (or the session is latched), `Read` never
consults the schema registry: replacing the schema changes neither the
returned value nor any other state component. -/
theorem read_schema_independent (r : Reader) (σ' : Schema)
    (h : r.hasDescriptors = true ∨ r.permanentErr ≠ none) :
    Reader.read { r with schema := σ' } = ((r.read).1, { (r.read).2 with schema := σ' }) := by
  obtain ⟨src, sch, pe, hdflag, rd, cols⟩ := r
  rcases pe with _ | e
  · have hd : hdflag = true := by
      rcases h with h | h
      · exact h
      · exact absurd rfl h
    subst hd
    exact readAfterDescriptors_schema_independent ⟨src, sch, none, true, rd, cols⟩ σ'
  · rfl

/-- A session that is past its header (descriptors built or error latched)
stays past its header after any `Read`. -/
theorem read_preserves_past_header (r : Reader)
    (h : r.hasDescriptors = true ∨ r.permanentErr ≠ none) :
    (r.read).2.hasDescriptors = true ∨ (r.read).2.permanentErr ≠ none := by
  obtain ⟨src, sch, pe, hdflag, rd, cols⟩ := r
  rcases pe with _ | e
  · have hd : hdflag = true := by
      rcases h with h | h
      · exact h
      · exact absurd rfl h
    subst hd
    show ((Reader.readAfterDescriptors ⟨src, sch, none, true, rd, cols⟩).2.hasDescriptors = true) ∨
      ((Reader.readAfterDescriptors ⟨src, sch, none, true, rd, cols⟩).2.permanentErr ≠ none)
    unfold Reader.readAfterDescriptors
    rcases hp : Reader.parseRow ⟨src, sch, none, true, rd, cols⟩ with ⟨o, r₁⟩
    have hkeep : r₁.hasDescriptors = true := by
      have := (parseRow_state ⟨src, sch, none, true, rd, cols⟩).1
      rw [hp] at this
      exact this
    cases o with
    | rerr e => right; simp
    | crash => left; exact hkeep
    | ok =>
      dsimp only
      rcases hsnap : snapshotLoop r₁.rd.componentValues 0 r₁.rd.results with _ | results
      · left; exact hkeep
      · left; exact hkeep
  · right
    simp [Reader.read]

/-- C10: once the descriptors for the current table have been built,
`SetSchema` with any new schema does not change how the remaining rows are
decoded — every subsequent `Read` outcome is identical, because row
decoding consults only the descriptors and slots captured at header time. -/
theorem c10_setSchema_after_header_is_inert (r : Reader)
    (components : List CompType) (n : Nat) (h : r.hasDescriptors = true) :
    runOutputs (r.setSchema components) n = runOutputs r n := by
  suffices gen : ∀ (m : Nat) (s : Reader),
      (s.hasDescriptors = true ∨ s.permanentErr ≠ none) →
      ∀ σ', runOutputs { s with schema := σ' } m = runOutputs s m by
    exact gen n r (Or.inl h) (buildSchema components)
  intro m
  induction m with
  | zero => intro s hs σ'; rfl
  | succ k ih =>
    intro s hs σ'
    simp only [runOutputs]
    rw [read_schema_independent s σ' hs]
    dsimp only
    rw [ih ((s.read).2) (read_preserves_past_header s hs) σ']

/-- C10 witness: swapping in a different schema after the header of the
`A.X,B.Y,A.X` table changes nothing about the remaining two reads. -/
theorem c10_setSchema_after_header_is_inert_witness :
    runOutputs (readerC5After.setSchema [typeD]) 2 = runOutputs readerC5After 2 :=
  c10_setSchema_after_header_is_inert readerC5After [typeD] 2 (by decide)

/-- Setting an index to the value it already holds leaves a list unchanged. -/
theorem list_set_self_of_getElem? {α : Type} : ∀ (l : List α) (i : Nat) (a : α),
    l[i]? = some a → l.set i a = l
  | [], _, _, h => by simp at h
  | x :: xs, 0, a, h => by
    simp at h
    subst h
    rfl
  | x :: xs, i + 1, a, h => by
    simp at h
    show x :: xs.set i a = x :: xs
    rw [list_set_self_of_getElem? xs i a h]

/-- An index that holds a value is within bounds. -/
theorem lt_length_of_getElem?_some {α : Type} : ∀ (l : List α) (i : Nat) (a : α),
    l[i]? = some a → i < l.length
  | [], _, _, h => by simp at h
  | _ :: _, 0, _, _ => by simp
  | x :: xs, i + 1, a, h => by
    simp at h
    have := lt_length_of_getElem?_some xs i a h
    simpa using Nat.succ_lt_succ this

/-- Taking one past an updated index splits off the written value. -/
theorem list_take_set_succ {α : Type} : ∀ (l : List α) (i : Nat) (a : α), i < l.length →
    (l.set i a).take (i + 1) = l.take i ++ [a]
  | [], _, _, h => by simp at h
  | x :: xs, 0, a, _ => rfl
  | x :: xs, i + 1, a, h => by
    show x :: (xs.set i a).take (i + 1) = x :: (xs.take i ++ [a])
    rw [list_take_set_succ xs i a (by simpa using h)]

/-- Overwriting a slot with an instance of the same component type does not
change the list of slot types. -/
theorem list_map_fst_set_self (values : List SlotVal) (i : Nat) (sv : SlotVal)
    (inst : Inst) (hsv : values[i]? = some sv) :
    (values.set i (sv.1, inst)).map Prod.fst = values.map Prod.fst := by
  rw [List.map_set]
  apply list_set_self_of_getElem?
  rw [List.getElem?_map, hsv]
  rfl

/-- `fieldByName` finds the field bearing exactly the requested name. -/
theorem fieldByName_getElem : ∀ (fields : List (String × FieldKind)) (F : String)
    (fk : Nat × FieldKind), fieldByName fields F = some fk →
    fields[fk.1]? = some (F, fk.2)
  | [], _, _, h => by simp [fieldByName] at h
  | f :: fs, F, fk, h => by
    rw [fieldByName] at h
    by_cases hf : f.1 = F
    · rw [if_pos hf] at h
      injection h with h
      subst h
      subst hf
      simp
    · rw [if_neg hf] at h
      rcases hp : fieldByName fs F with _ | p
      · rw [hp] at h; simp at h
      · rw [hp] at h
        injection h with h
        subst h
        have := fieldByName_getElem fs F p hp
        simpa using this

/-- In a freshly zeroed slot list, every field reads as its kind's zero. -/
theorem fieldSlotVal_zeroed (values : List SlotVal) (k : Nat) (F : String) :
    fieldSlotVal (values.map (fun sv => (sv.1, zeroInst sv.1))) k F =
      (fieldSlotKind (values.map (fun sv => (sv.1, zeroInst sv.1))) k F).map
        FieldKind.zero := by
  unfold fieldSlotVal fieldSlotKind
  rcases hk : values[k]? with _ | sv
  · simp [List.getElem?_map, hk]
  · rcases hfb : fieldByName sv.1.fields F with _ | fk
    · simp [List.getElem?_map, hk, Function.comp, hfb]
    · have hfe := fieldByName_getElem sv.1.fields F fk hfb
      simp [List.getElem?_map, hk, Function.comp, hfb, zeroInst, hfe]

/-- Writing into a field other than `(k, F)` leaves field `(k, F)` alone. -/
theorem fieldSlotVal_set_untargeted (values : List SlotVal) (k : Nat) (F : String)
    (cd : ColumnDescriptor) (sv : SlotVal) (fk : Nat × FieldKind) (v : Value)
    (hsv : values[cd.resultIndex]? = some sv)
    (hfb : fieldByName sv.1.fields cd.fieldName = some fk)
    (hne : ¬(cd.resultIndex = k ∧ cd.fieldName = F)) :
    fieldSlotVal (values.set cd.resultIndex (sv.1, sv.2.set fk.1 v)) k F =
      fieldSlotVal values k F := by
  by_cases hik : cd.resultIndex = k
  · subst hik
    have hFne : cd.fieldName ≠ F := fun hh => hne ⟨rfl, hh⟩
    have hlt : cd.resultIndex < values.length := lt_length_of_getElem?_some _ _ _ hsv
    unfold fieldSlotVal
    rw [List.getElem?_set_self hlt, hsv]
    simp only [Option.some_bind]
    rcases hfb2 : fieldByName sv.1.fields F with _ | fk2
    · rfl
    · have h1 := fieldByName_getElem _ _ _ hfb
      have h2 := fieldByName_getElem _ _ _ hfb2
      have hidx : fk.1 ≠ fk2.1 := by
        intro hh
        rw [hh] at h1
        rw [h1] at h2
        injection h2 with h2
        exact hFne (congrArg Prod.fst h2)
      simp only [Option.some_bind]
      rw [List.getElem?_set_ne hidx]
  · unfold fieldSlotVal
    rw [List.getElem?_set_ne hik]

/-- The cell loop changes only slot instances: slot types and the output
container are untouched. -/
theorem fillLoop_preserves (cols : List ColumnDescriptor) :
    ∀ (cells : List String) (c : Nat) (rd : ResultDescriptor),
      ((fillLoop cols rd c cells).2.componentValues.map Prod.fst =
        rd.componentValues.map Prod.fst) ∧
      (fillLoop cols rd c cells).2.results = rd.results := by
  intro cells
  induction cells with
  | nil => intro c rd; exact ⟨rfl, rfl⟩
  | cons cell cs ih =>
    intro c rd
    rw [fillLoop]
    by_cases hc : cell = ""
    · rw [if_pos hc]
      exact ih (c + 1) rd
    · rw [if_neg hc]
      rcases hcol : cols[c]? with _ | cd
      · exact ⟨rfl, rfl⟩
      · dsimp only
        rcases hsv : rd.componentValues[cd.resultIndex]? with _ | sv
        · exact ⟨rfl, rfl⟩
        · dsimp only
          rcases hfb : fieldByName sv.1.fields cd.fieldName with _ | fk
          · exact ⟨rfl, rfl⟩
          · dsimp only
            rcases hsf : setFieldFromCell fk.2 cell with e | v
            · exact ⟨rfl, rfl⟩
            · dsimp only
              obtain ⟨ih1, ih2⟩ := ih (c + 1)
                { rd with componentValues :=
                    rd.componentValues.set cd.resultIndex (sv.1, sv.2.set fk.1 v) }
              refine ⟨?_, ih2⟩
              rw [ih1]
              exact list_map_fst_set_self _ _ _ _ hsv

/-- The cell loop never touches a field all of whose cells (among the
remaining columns) are empty or absent. -/
theorem fillLoop_frame (cols : List ColumnDescriptor) (k : Nat) (F : String) :
    ∀ (cells : List String) (c : Nat) (rd : ResultDescriptor),
      (∀ (j : Nat) (cd : ColumnDescriptor), cols[c + j]? = some cd →
        cd.resultIndex = k → cd.fieldName = F →
        cells[j]? = some "" ∨ cells[j]? = none) →
      fieldSlotVal (fillLoop cols rd c cells).2.componentValues k F =
        fieldSlotVal rd.componentValues k F := by
  intro cells
  induction cells with
  | nil => intro c rd _; rfl
  | cons cell cs ih =>
    intro c rd hsafe
    have hshift : ∀ (j : Nat) (cd' : ColumnDescriptor), cols[c + 1 + j]? = some cd' →
        cd'.resultIndex = k → cd'.fieldName = F → cs[j]? = some "" ∨ cs[j]? = none := by
      intro j cd' hcd h1 h2
      have heq : c + 1 + j = c + (j + 1) := by omega
      rw [heq] at hcd
      rcases hsafe (j + 1) cd' hcd h1 h2 with hh | hh
      · left; simpa using hh
      · right; simpa using hh
    rw [fillLoop]
    by_cases hc : cell = ""
    · rw [if_pos hc]
      exact ih (c + 1) rd hshift
    · rw [if_neg hc]
      rcases hcol : cols[c]? with _ | cd
      · rfl
      · dsimp only
        rcases hsv : rd.componentValues[cd.resultIndex]? with _ | sv
        · rfl
        · dsimp only
          rcases hfb : fieldByName sv.1.fields cd.fieldName with _ | fk
          · rfl
          · dsimp only
            rcases hsf : setFieldFromCell fk.2 cell with e | v
            · rfl
            · dsimp only
              have hne : ¬(cd.resultIndex = k ∧ cd.fieldName = F) := by
                rintro ⟨h1, h2⟩
                have h0 : cols[c + 0]? = some cd := by simpa using hcol
                rcases hsafe 0 cd h0 h1 h2 with hh | hh
                · simp at hh; exact hc hh
                · simp at hh
              rw [ih (c + 1) _ hshift]
              exact fieldSlotVal_set_untargeted rd.componentValues k F cd sv fk v hsv hfb hne

/-- The snapshot loop, run over aligned slots and container, fills the
container with a copy of every slot instance. -/
theorem snapshotLoop_complete : ∀ (values : List SlotVal) (i : Nat)
    (results : List (Option SlotVal)), results.length = i + values.length →
    snapshotLoop values i results = some (results.take i ++ values.map some)
  | [], i, results, h => by
    unfold snapshotLoop
    simp at h
    rw [← h, List.take_length]
    simp
  | v :: vs, i, results, h => by
    unfold snapshotLoop
    simp at h
    have hlt : i < results.length := by omega
    rw [if_pos hlt]
    have hlen : (results.set i (some v)).length = i + 1 + vs.length := by
      simp [List.length_set]; omega
    rw [snapshotLoop_complete vs (i + 1) (results.set i (some v)) hlen]
    rw [list_take_set_succ results i (some v) hlt]
    simp

/-- Zeroing the slots leaves the slot types unchanged. -/
theorem zeroValues_map_fst (rd : ResultDescriptor) :
    (zeroValues rd).componentValues.map Prod.fst = rd.componentValues.map Prod.fst := by
  rw [show (zeroValues rd).componentValues =
      rd.componentValues.map (fun sv => (sv.1, zeroInst sv.1)) from rfl, List.map_map]
  rfl

/-- What a successful post-header `Read` step produces: the next source row
was consumed, the post-state's slots are the filled slots, and the output is
the snapshot (one copy per slot) of those slots. -/
theorem readAfterDescriptors_ok_spec (r : Reader) (out : List (Option SlotVal))
    (r' : Reader) (hlen : r.rd.results.length = r.rd.componentValues.length)
    (h : r.readAfterDescriptors = (.ok out, r')) :
    ∃ row rest, r.source = row :: rest ∧
      r'.rd.componentValues =
        (fillLoop r.columnDescriptors (zeroValues r.rd) 0 row).2.componentValues ∧
      out = r'.rd.componentValues.map some ∧
      r'.rd.results = out ∧
      r'.hasDescriptors = r.hasDescriptors ∧
      r'.permanentErr = r.permanentErr := by
  rcases hs : r.source with _ | ⟨row, rest⟩
  · have hp : r.parseRow = (.rerr .eof, r) := by
      unfold Reader.parseRow; rw [hs]
    unfold Reader.readAfterDescriptors at h
    rw [hp] at h
    simp at h
  · have hp : r.parseRow =
        ((fillLoop r.columnDescriptors (zeroValues r.rd) 0 row).1,
         { r with source := rest,
                  rd := (fillLoop r.columnDescriptors (zeroValues r.rd) 0 row).2 }) := by
      unfold Reader.parseRow; rw [hs]
    unfold Reader.readAfterDescriptors at h
    rw [hp] at h
    rcases hfl : (fillLoop r.columnDescriptors (zeroValues r.rd) 0 row).1 with _ | e | _
    · rw [hfl] at h
      dsimp only at h
      have hpres := fillLoop_preserves r.columnDescriptors row 0 (zeroValues r.rd)
      have hlenV : (fillLoop r.columnDescriptors (zeroValues r.rd) 0
          row).2.componentValues.length = r.rd.componentValues.length := by
        have hh := congrArg List.length hpres.1
        rw [List.length_map, List.length_map] at hh
        rw [hh]
        exact List.length_map _ _
      have hsnap := snapshotLoop_complete
          ((fillLoop r.columnDescriptors (zeroValues r.rd) 0 row).2.componentValues) 0
          ((fillLoop r.columnDescriptors (zeroValues r.rd) 0 row).2.results)
          (by
            rw [hpres.2, show (zeroValues r.rd).results = r.rd.results from rfl, hlen, hlenV]
            omega)
      rw [hsnap] at h
      dsimp only at h
      rw [Prod.mk.injEq] at h
      obtain ⟨ho, hr'⟩ := h
      injection ho with ho
      refine ⟨row, rest, by simp [hs], ?_, ?_, ?_, ?_, ?_⟩
      · rw [← hr']
      · rw [← hr', ← ho]
        simp
      · rw [← hr', ← ho]
      · rw [← hr']
      · rw [← hr']
    · rw [hfl] at h; simp at h
    · rw [hfl] at h; simp at h

/-- C6: every row decode first resets every slot instance to its type's
zero value, so a field `(k, F)` all of whose cells in the current row are
empty (or whose columns are absent) comes out of a successful `Read` at its
kind's zero value — regardless of the values the slots held after the
previous row (the pre-state's `componentValues` are arbitrary).  The
returned output is the per-slot snapshot of those post-decode instances. -/
theorem c6_empty_cell_leaves_field_at_default (r : Reader) (row : List String)
    (rest : List (List String)) (k : Nat) (F : String)
    (h1 : r.permanentErr = none) (h2 : r.hasDescriptors = true)
    (h3 : r.source = row :: rest)
    (h4 : r.rd.results.length = r.rd.componentValues.length)
    (h5 : ∀ (j : Nat) (cd : ColumnDescriptor), r.columnDescriptors[j]? = some cd →
      cd.resultIndex = k → cd.fieldName = F → row[j]? = some "" ∨ row[j]? = none)
    (out : List (Option SlotVal)) (r' : Reader)
    (h6 : r.read = (.ok out, r')) :
    out = r'.rd.componentValues.map some ∧
    fieldSlotVal r'.rd.componentValues k F =
      (fieldSlotKind r'.rd.componentValues k F).map FieldKind.zero := by
  have hr : r.read = r.readAfterDescriptors := by
    simp [Reader.read, h1, h2]
  rw [hr] at h6
  obtain ⟨row', rest', hsrc, hvals, hout, _, _, _⟩ :=
    readAfterDescriptors_ok_spec r out r' h4 h6
  rw [h3] at hsrc
  injection hsrc with hrow hrest
  subst hrow
  refine ⟨hout, ?_⟩
  rw [hvals]
  have hsafe0 : ∀ (j : Nat) (cd : ColumnDescriptor),
      r.columnDescriptors[0 + j]? = some cd → cd.resultIndex = k → cd.fieldName = F →
      row[j]? = some "" ∨ row[j]? = none := by
    intro j cd hcd hk hF
    exact h5 j cd (by simpa using hcd) hk hF
  rw [fillLoop_frame r.columnDescriptors k F row 0 (zeroValues r.rd) hsafe0]
  have hkind : fieldSlotKind
      (fillLoop r.columnDescriptors (zeroValues r.rd) 0 row).2.componentValues k F =
      fieldSlotKind (zeroValues r.rd).componentValues k F := by
    unfold fieldSlotKind
    rw [(fillLoop_preserves r.columnDescriptors row 0 (zeroValues r.rd)).1]
  rw [hkind]
  exact fieldSlotVal_zeroed r.rd.componentValues k F

/-- C6 witness: decoding `,v` over a `D{X, Y string}` slot that still holds
stale values `stale`/`old`: the empty `X` cell comes out as the zero string,
not as the stale value. -/
theorem c6_empty_cell_leaves_field_at_default_witness :
    outC6 = readerC6After.rd.componentValues.map some ∧
    fieldSlotVal readerC6After.rd.componentValues 0 "X" =
      (fieldSlotKind readerC6After.rd.componentValues 0 "X").map FieldKind.zero :=
  c6_empty_cell_leaves_field_at_default readerC6 ["", "v"] [] 0 "X" rfl rfl rfl rfl
    (by
      intro j cd hcd hk hF
      rcases j with _ | _ | j
      · exact Or.inl rfl
      · simp [readerC6] at hcd
        rw [← hcd] at hF
        exact absurd hF (by decide)
      · simp [readerC6] at hcd)
    outC6 readerC6After (by decide)

/-- `slices.Index` reports `-1` (here `none`) exactly for absent elements. -/
theorem indexOfAux_eq_none_iff : ∀ (t : CompType) (l : List CompType),
    indexOfAux t l = none ↔ t ∉ l
  | t, [] => by simp [indexOfAux]
  | t, x :: xs => by
    rw [indexOfAux]
    by_cases hx : x = t
    · simp [hx]
    · rw [if_neg hx]
      rcases hio : indexOfAux t xs with _ | i
      · simp only [Option.map_none']
        constructor
        · intro _ hmem
          rcases List.mem_cons.mp hmem with heq | hmem2
          · exact hx heq.symm
          · exact ((indexOfAux_eq_none_iff t xs).mp hio) hmem2
        · intro _
          trivial
      · simp only [Option.map_some']
        constructor
        · intro hh
          exact absurd hh (by simp)
        · intro hh
          exfalso
          apply hh
          apply List.mem_cons_of_mem
          by_contra hmm
          have := (indexOfAux_eq_none_iff t xs).mpr hmm
          rw [this] at hio
          exact Option.noConfusion hio

/-- Membership in the first-occurrence deduplication. -/
theorem mem_firstOccsAux : ∀ (R seen : List CompType) (t : CompType),
    t ∈ firstOccsAux seen R ↔ (t ∈ R ∧ t ∉ seen)
  | [], seen, t => by simp [firstOccsAux]
  | x :: xs, seen, t => by
    rw [firstOccsAux]
    by_cases hx : x ∈ seen
    · rw [if_pos hx]
      rw [mem_firstOccsAux xs seen t]
      simp only [List.mem_cons]
      constructor
      · rintro ⟨hh1, hh2⟩
        exact ⟨Or.inr hh1, hh2⟩
      · rintro ⟨hh1 | hh1, hh2⟩
        · subst hh1; exact absurd hx hh2
        · exact ⟨hh1, hh2⟩
    · rw [if_neg hx]
      simp only [List.mem_cons, mem_firstOccsAux xs (seen ++ [x]) t, List.mem_append,
        List.mem_singleton]
      by_cases ht : t = x
      · subst ht; tauto
      · tauto

/-- The first-occurrence deduplication has no duplicates. -/
theorem nodup_firstOccsAux : ∀ (R seen : List CompType), (firstOccsAux seen R).Nodup
  | [], seen => by simp [firstOccsAux]
  | x :: xs, seen => by
    rw [firstOccsAux]
    by_cases hx : x ∈ seen
    · rw [if_pos hx]
      exact nodup_firstOccsAux xs seen
    · rw [if_neg hx]
      refine List.nodup_cons.mpr ⟨?_, nodup_firstOccsAux xs (seen ++ [x])⟩
      intro hmem
      have := (mem_firstOccsAux xs (seen ++ [x]) x).mp hmem
      exact this.2 (by simp)

/-- The header loop resolves every column and accumulates exactly the
first-seen deduplication of the resolved component types (appended to
whatever types were already present), keeping slot values parallel to slot
types. -/
theorem createDescriptorsLoop_types (σ : Schema) :
    ∀ (row : List String) (st : ResultDescriptor × List ColumnDescriptor)
      (out : ResultDescriptor × List ColumnDescriptor),
      createDescriptorsLoop σ st row = .ok out →
      ∃ R, resolveHeader σ row = .ok R ∧
        out.1.componentTypes = st.1.componentTypes ++ firstOccsAux st.1.componentTypes R ∧
        (st.1.componentValues.map Prod.fst = st.1.componentTypes →
          out.1.componentValues.map Prod.fst = out.1.componentTypes) := by
  intro row
  induction row with
  | nil =>
    intro st out h
    rw [createDescriptorsLoop] at h
    injection h with h
    subst h
    exact ⟨[], rfl, by rw [firstOccsAux]; simp, fun hh => hh⟩
  | cons q qs ih =>
    intro st out h
    rw [createDescriptorsLoop] at h
    rcases hpc : processHeaderCell σ st q with e | st'
    · rw [hpc] at h; simp at h
    · rw [hpc] at h
      dsimp only at h
      obtain ⟨R', hR', htypes, hpar⟩ := ih st' out h
      unfold processHeaderCell at hpc
      rcases hrc : resolveCol σ q with e | t
      · rw [hrc] at hpc; simp at hpc
      · rw [hrc] at hpc
        dsimp only at hpc
        have hst1 : st'.1 = (extendResultDescriptor st.1 t).2 := by
          split at hpc <;> (injection hpc with hpc; rw [← hpc])
        refine ⟨t :: R', ?_, ?_, ?_⟩
        · rw [resolveHeader, hrc, hR']
        · rw [htypes, hst1]
          unfold extendResultDescriptor
          rcases hio : indexOfAux t st.1.componentTypes with _ | i
          · dsimp only
            have hmem : t ∉ st.1.componentTypes := (indexOfAux_eq_none_iff t _).mp hio
            rw [firstOccsAux, if_neg hmem]
            simp [List.append_assoc]
          · dsimp only
            have hmem : t ∈ st.1.componentTypes := by
              by_contra hmm
              rw [(indexOfAux_eq_none_iff t _).mpr hmm] at hio
              exact Option.noConfusion hio
            rw [firstOccsAux, if_pos hmem]
        · intro hpar0
          apply hpar
          rw [hst1]
          unfold extendResultDescriptor
          rcases hio : indexOfAux t st.1.componentTypes with _ | i
          · dsimp only
            rw [List.map_append, hpar0]
            rfl
          · dsimp only
            exact hpar0

/-- `createDescriptors` on an empty result descriptor: the slot types are
the first-seen deduplication of the header's resolved component types, slot
values are parallel to slot types, and the output container has one entry
per slot. -/
theorem createDescriptors_spec (σ : Schema) (row : List String)
    (rdx : ResultDescriptor) (colsx : List ColumnDescriptor)
    (h : createDescriptors σ .empty row = .ok (rdx, colsx)) :
    ∃ R, resolveHeader σ row = .ok R ∧
      rdx.componentTypes = firstOccs R ∧
      rdx.componentValues.map Prod.fst = firstOccs R ∧
      rdx.results.length = rdx.componentTypes.length := by
  unfold createDescriptors at h
  rcases hl : createDescriptorsLoop σ (ResultDescriptor.empty, []) row with e | st
  · rw [hl] at h; simp at h
  · rw [hl] at h
    dsimp only at h
    injection h with h
    rw [Prod.mk.injEq] at h
    obtain ⟨h1, h2⟩ := h
    subst h1
    obtain ⟨R, hR, htypes, hpar⟩ :=
      createDescriptorsLoop_types σ row (ResultDescriptor.empty, []) st hl
    have htypes2 : st.1.componentTypes = firstOccs R := by
      simpa [ResultDescriptor.empty, firstOccs] using htypes
    have hvals2 : st.1.componentValues.map Prod.fst = firstOccs R := by
      have hh := hpar rfl
      rw [htypes2] at hh
      exact hh
    refine ⟨R, hR, htypes2, hvals2, ?_⟩
    simp

/-- The first `Read` of a fresh session: build descriptors from the first
row, then (on success) decode the next row with them. -/
theorem read_fresh_step (σ : Schema) (row : List String) (rest : List (List String))
    (rd₀ : ResultDescriptor) (cols₀ : List ColumnDescriptor) :
    Reader.read ⟨row :: rest, σ, none, false, rd₀, cols₀⟩ =
      match createDescriptors σ rd₀ row with
      | .error e => (.fail e, ⟨rest, σ, some e, false, ResultDescriptor.empty, []⟩)
      | .ok dc => Reader.readAfterDescriptors ⟨rest, σ, none, true, dc.1, dc.2⟩ := by
  rcases hcd : createDescriptors σ rd₀ row with e | dc
  · unfold Reader.read
    dsimp only
    rw [hcd, if_neg (show ¬(false = true) by decide)]
    rfl
  · unfold Reader.read
    dsimp only
    rw [hcd, if_neg (show ¬(false = true) by decide)]

/-- A latched session returns its latched error with the state unchanged. -/
theorem read_latched (r : Reader) (e : ReadError) (h : r.permanentErr = some e) :
    r.read = (.fail e, r) := by
  simp [Reader.read, h]

/-- A successful `Read` from any mid-session state (descriptors built, no
latch) preserves the slot types and snapshots one copy per slot. -/
theorem read_ok_mid_session (T : List CompType) (s : Reader)
    (out : List (Option SlotVal)) (r' : Reader)
    (hd : s.hasDescriptors = true)
    (hmap : s.rd.componentValues.map Prod.fst = T)
    (hlen : s.rd.results.length = s.rd.componentValues.length)
    (hpe : s.permanentErr = none)
    (h : s.read = (.ok out, r')) :
    r'.rd.componentValues.map Prod.fst = T ∧ out = r'.rd.componentValues.map some := by
  have hr : s.read = s.readAfterDescriptors := by
    simp [Reader.read, hpe, hd]
  rw [hr] at h
  obtain ⟨row, rest, hsrc, hvals, hout, _, _, _⟩ :=
    readAfterDescriptors_ok_spec s out r' hlen h
  refine ⟨?_, hout⟩
  rw [hvals, (fillLoop_preserves _ row 0 _).1, zeroValues_map_fst]
  exact hmap

/-- Any outcome of the post-header decode phase either keeps the session's
descriptor flag, slot types and container/slot alignment intact, or latches
an error. -/
theorem readAfterDescriptors_preserves_slots (T : List CompType) (s : Reader)
    (hd : s.hasDescriptors = true)
    (hmap : s.rd.componentValues.map Prod.fst = T)
    (hlen : s.rd.results.length = s.rd.componentValues.length) :
    ((s.readAfterDescriptors).2.hasDescriptors = true ∧
     (s.readAfterDescriptors).2.rd.componentValues.map Prod.fst = T ∧
     (s.readAfterDescriptors).2.rd.results.length =
       (s.readAfterDescriptors).2.rd.componentValues.length) ∨
    (s.readAfterDescriptors).2.permanentErr ≠ none := by
  rcases hs : s.source with _ | ⟨row, rest⟩
  · have hp : s.parseRow = (.rerr .eof, s) := by
      unfold Reader.parseRow; rw [hs]
    unfold Reader.readAfterDescriptors
    rw [hp]
    right; simp
  · have hp : s.parseRow =
        ((fillLoop s.columnDescriptors (zeroValues s.rd) 0 row).1,
         { s with source := rest,
                  rd := (fillLoop s.columnDescriptors (zeroValues s.rd) 0 row).2 }) := by
      unfold Reader.parseRow; rw [hs]
    unfold Reader.readAfterDescriptors
    rw [hp]
    have hpres := fillLoop_preserves s.columnDescriptors row 0 (zeroValues s.rd)
    have hmapV : (fillLoop s.columnDescriptors (zeroValues s.rd) 0
        row).2.componentValues.map Prod.fst = T := by
      rw [hpres.1, zeroValues_map_fst]
      exact hmap
    have hlenV : (fillLoop s.columnDescriptors (zeroValues s.rd) 0
        row).2.componentValues.length = s.rd.componentValues.length := by
      have hh := congrArg List.length hpres.1
      rw [List.length_map, List.length_map] at hh
      rw [hh]
      exact List.length_map _ _
    rcases hfl : (fillLoop s.columnDescriptors (zeroValues s.rd) 0 row).1 with _ | e | _
    · dsimp only
      have hsnap := snapshotLoop_complete
          ((fillLoop s.columnDescriptors (zeroValues s.rd) 0 row).2.componentValues) 0
          ((fillLoop s.columnDescriptors (zeroValues s.rd) 0 row).2.results)
          (by
            rw [hpres.2, show (zeroValues s.rd).results = s.rd.results from rfl, hlen, hlenV]
            omega)
      rw [hsnap]
      dsimp only
      left
      refine ⟨hd, hmapV, ?_⟩
      simp
    · dsimp only
      right
      simp
    · dsimp only
      left
      refine ⟨hd, hmapV, ?_⟩
      rw [hpres.2, show (zeroValues s.rd).results = s.rd.results from rfl, hlen, hlenV]

/-- One `Read`, from any state, keeps the "descriptor flag, slot types and
container alignment intact, or error latched" invariant. -/
theorem read_step_preserves_slots (T : List CompType) (s : Reader)
    (hP : (s.hasDescriptors = true ∧ s.rd.componentValues.map Prod.fst = T ∧
           s.rd.results.length = s.rd.componentValues.length) ∨
          s.permanentErr ≠ none) :
    (((s.read).2).hasDescriptors = true ∧
     ((s.read).2).rd.componentValues.map Prod.fst = T ∧
     ((s.read).2).rd.results.length = ((s.read).2).rd.componentValues.length) ∨
    ((s.read).2).permanentErr ≠ none := by
  rcases hpe : s.permanentErr with _ | e
  · obtain ⟨hd, hmap, hlen⟩ : s.hasDescriptors = true ∧
        s.rd.componentValues.map Prod.fst = T ∧
        s.rd.results.length = s.rd.componentValues.length := by
      rcases hP with h | h
      · exact h
      · exact absurd hpe h
    have hr : s.read = s.readAfterDescriptors := by
      simp [Reader.read, hpe, hd]
    rw [hr]
    exact readAfterDescriptors_preserves_slots T s hd hmap hlen
  · rw [read_latched s e hpe]
    right
    simp [hpe]

/-- After any number of reads of a session whose header resolved to `R`,
either the descriptors are intact — slot types equal to `firstOccs R`, one
container entry per slot — or an error is latched. -/
theorem readN_slots_invariant (σ : Schema) (header : List String) (R : List CompType)
    (rows : List (List String)) (hR : resolveHeader σ header = .ok R) :
    ∀ n : Nat,
    ((readN (⟨header :: rows, σ, none, false, ResultDescriptor.empty, []⟩ : Reader)
        (n + 1)).hasDescriptors = true ∧
     (readN (⟨header :: rows, σ, none, false, ResultDescriptor.empty, []⟩ : Reader)
        (n + 1)).rd.componentValues.map Prod.fst = firstOccs R ∧
     (readN (⟨header :: rows, σ, none, false, ResultDescriptor.empty, []⟩ : Reader)
        (n + 1)).rd.results.length =
       (readN (⟨header :: rows, σ, none, false, ResultDescriptor.empty, []⟩ : Reader)
        (n + 1)).rd.componentValues.length) ∨
    (readN (⟨header :: rows, σ, none, false, ResultDescriptor.empty, []⟩ : Reader)
        (n + 1)).permanentErr ≠ none := by
  intro n
  induction n with
  | zero =>
    simp only [readN]
    rw [read_fresh_step]
    rcases hcd : createDescriptors σ ResultDescriptor.empty header with e | dc
    · dsimp only
      right
      simp
    · dsimp only
      obtain ⟨Rx, hRx, htypes, hvalsfst, hreslen⟩ :=
        createDescriptors_spec σ header dc.1 dc.2 (by rw [hcd])
      rw [hR] at hRx
      injection hRx with hRx
      subst hRx
      have hlen2 : dc.1.results.length = dc.1.componentValues.length := by
        rw [hreslen, htypes, ← hvalsfst, List.length_map]
      exact readAfterDescriptors_preserves_slots (firstOccs R)
        ⟨rows, σ, none, true, dc.1, dc.2⟩ rfl hvalsfst hlen2
  | succ m ih =>
    exact read_step_preserves_slots (firstOccs R)
      (readN (⟨header :: rows, σ, none, false, ResultDescriptor.empty, []⟩ : Reader)
        (m + 1)) ih

/-- C5: in a session whose header resolved to the component types `R` (one
per column), every successful `Read` — the first or any later one, i.e. the
read performed after `n` previous reads, for every `n` — produces exactly
one result slot per distinct component type of `R`: the slot types are
`firstOccs R`, the deduplication of `R` that keeps each component type's
first appearance, in column order; it has no duplicates and contains
precisely the types referenced by the header, and the output is one
snapshot per slot, in that order.  Slot lookup is by equality of the
component layout (`CompType`), the model of `reflect.Type` identity. -/
theorem c5_one_slot_per_component_in_first_seen_order (σ : Schema)
    (header : List String) (R : List CompType) (rows : List (List String)) (n : Nat)
    (out : List (Option SlotVal)) (r' : Reader)
    (hR : resolveHeader σ header = .ok R)
    (h : (readN (⟨header :: rows, σ, none, false, ResultDescriptor.empty, []⟩ : Reader)
        n).read = (.ok out, r')) :
    r'.rd.componentValues.map Prod.fst = firstOccs R ∧
    (firstOccs R).Nodup ∧
    (∀ t, t ∈ firstOccs R ↔ t ∈ R) ∧
    out = r'.rd.componentValues.map some := by
  have hmem : ∀ t, t ∈ firstOccs R ↔ t ∈ R := by
    intro t
    rw [firstOccs, mem_firstOccsAux R [] t]
    simp
  cases n with
  | zero =>
    simp only [readN] at h
    rw [read_fresh_step] at h
    rcases hcd : createDescriptors σ ResultDescriptor.empty header with e | dc
    · rw [hcd] at h; simp at h
    · rw [hcd] at h
      dsimp only at h
      obtain ⟨Rx, hRx, htypes, hvalsfst, hreslen⟩ :=
        createDescriptors_spec σ header dc.1 dc.2 (by rw [hcd])
      rw [hR] at hRx
      injection hRx with hRx
      subst hRx
      have hlen2 : dc.1.results.length = dc.1.componentValues.length := by
        rw [hreslen, htypes, ← hvalsfst, List.length_map]
      obtain ⟨row, rest2, hsrc, hvals, hout, _, _, _⟩ := readAfterDescriptors_ok_spec
        ⟨rows, σ, none, true, dc.1, dc.2⟩ out r' hlen2 h
      refine ⟨?_, nodup_firstOccsAux R [], hmem, hout⟩
      rw [hvals]
      rw [(fillLoop_preserves _ row 0 _).1]
      rw [show (zeroValues (Reader.rd ⟨rows, σ, none, true, dc.1, dc.2⟩)).componentValues =
          (zeroValues dc.1).componentValues from rfl]
      rw [zeroValues_map_fst]
      exact hvalsfst
  | succ m =>
    rcases readN_slots_invariant σ header R rows hR m with ⟨hd, hmap, hlen⟩ | hlatch
    · rcases hpe : (readN (⟨header :: rows, σ, none, false, ResultDescriptor.empty, []⟩ :
          Reader) (m + 1)).permanentErr with _ | e
      · obtain ⟨h1, h2⟩ := read_ok_mid_session (firstOccs R)
          (readN (⟨header :: rows, σ, none, false, ResultDescriptor.empty, []⟩ : Reader)
            (m + 1)) out r' hd hmap hlen hpe h
        exact ⟨h1, nodup_firstOccsAux R [], hmem, h2⟩
      · rw [read_latched _ e hpe] at h
        simp at h
    · rcases hx : (readN (⟨header :: rows, σ, none, false, ResultDescriptor.empty, []⟩ :
          Reader) (m + 1)).permanentErr with _ | e
      · exact absurd hx hlatch
      · rw [read_latched _ e hx] at h
        simp at h

/-- C5 witness: the header `A.X,B.Y,A.X` (component `A` split across two
non-contiguous columns) followed by two data rows, instantiated at the
session's second decode (`n = 1`), not its first. -/
theorem c5_one_slot_per_component_in_first_seen_order_witness :
    readerC5bAfter.rd.componentValues.map Prod.fst = firstOccs resolvedC5 ∧
    outC5b = readerC5bAfter.rd.componentValues.map some :=
  ⟨(c5_one_slot_per_component_in_first_seen_order schemaAB ["A.X", "B.Y", "A.X"]
      resolvedC5 [["1", "2", "3"], ["4", "5", "6"]] 1 outC5b readerC5bAfter
      (by decide) (by decide)).1,
   (c5_one_slot_per_component_in_first_seen_order schemaAB ["A.X", "B.Y", "A.X"]
      resolvedC5 [["1", "2", "3"], ["4", "5", "6"]] 1 outC5b readerC5bAfter
      (by decide) (by decide)).2.2.2⟩

/-- C7 witness: the 8-bit boundary. -/
theorem c7_integer_boundary_witness :
    setFieldFromCell (.int 8) (Nat.repr (2 ^ 7 - 1)) =
      .ok (.vint ((2 ^ 7 - 1 : Nat) : Int)) ∧
    coercionOverflows (setFieldFromCell (.int 8) (Nat.repr (2 ^ 7))) = true ∧
    setFieldFromCell (.uint 8) (Nat.repr (2 ^ 8 - 1)) = .ok (.vuint (2 ^ 8 - 1)) ∧
    coercionOverflows (setFieldFromCell (.uint 8) (Nat.repr (2 ^ 8))) = true :=
  c7_integer_boundary 8 (Or.inl rfl)

end Csvstruct
